import Mathlib

/-!
# Verification of `helm-list-charts` (src/main.rs)

A shallow embedding of the index-to-table rendering pipeline of
`helm-list-charts`.  Rust strings are modelled as Lean `String`s and all
character-level operations work on the underlying `List Char` (Unicode
scalar values); byte-wise lexicographic comparison of UTF-8 strings
coincides with codepoint-wise lexicographic comparison, which is how we
model Rust's `str::cmp`.  External collaborators (network fetch, the
pager subprocess, chrono's local-timezone date rendering) are modelled at
their interface boundary.
-/

namespace HelmListCharts

/-- `ChartVersion` from src/main.rs: one published version record of one
chart.  `version` is required; all other fields are optional. -/
structure ChartVersion where
  version : String
  description : Option String
  app_version : Option String
  created : Option String
  kube_version : Option String
  chart_type : Option String
deriving DecidableEq, Repr

/-! ## Character helpers -/

/-- ASCII digit test (`u8::is_ascii_digit` on the corresponding byte). -/
def isDigitCh (c : Char) : Bool := 48 ≤ c.toNat && c.toNat ≤ 57

/-- Characters admitted in semver pre-release/build identifiers:
ASCII alphanumerics and `-`. -/
def isIdentCh (c : Char) : Bool :=
  isDigitCh c || (65 ≤ c.toNat && c.toNat ≤ 90) ||
    (97 ≤ c.toNat && c.toNat ≤ 122) || c.toNat == 45

/-- Rust `char::is_whitespace`: the Unicode `White_Space` property. -/
def isRustWhitespace (c : Char) : Bool :=
  let n := c.toNat
  (0x09 ≤ n && n ≤ 0x0D) || n == 0x20 || n == 0x85 || n == 0xA0 ||
    n == 0x1680 || (0x2000 ≤ n && n ≤ 0x200A) || n == 0x2028 ||
    n == 0x2029 || n == 0x202F || n == 0x205F || n == 0x3000

/-- Codepoint-wise lexicographic comparison of two character lists.
Models Rust's `str::cmp`/`String::cmp` (byte-wise lexicographic on UTF-8,
which orders exactly like codepoint-wise lexicographic order). -/
def cmpLex : List Char → List Char → Ordering
  | [], [] => .eq
  | [], _ :: _ => .lt
  | _ :: _, [] => .gt
  | a :: ta, b :: tb => (compare a.toNat b.toNat).then (cmpLex ta tb)

/-- `u8::to_ascii_lowercase` lifted to codepoints: ASCII uppercase letters
are shifted to lowercase, everything else is untouched. -/
def asciiLowerNat (n : Nat) : Nat := if 65 ≤ n ∧ n ≤ 90 then n + 32 else n

/-- Rust `str::eq_ignore_ascii_case`: equal lengths and pairwise equality
after ASCII lowercasing.  (Rust folds bytes; on aligned strings this is
equivalent to folding codepoints, since ASCII folding never alters
non-ASCII bytes or UTF-8 structure.) -/
def eqIgnoreAsciiCase (a b : String) : Bool :=
  a.data.length == b.data.length &&
    (a.data.zip b.data).all fun p => asciiLowerNat p.1.toNat == asciiLowerNat p.2.toNat

/-! ## `ellipsize` (src/main.rs lines 197–215) -/

/-- Index (in characters) of the last occurrence of `c`, if any.  Models
`str::rfind(' ')`: the byte index returned by `rfind(' ')` is exactly the
index of the character list prefix that precedes the last space. -/
def lastIdxOf (c : Char) : List Char → Option Nat
  | [] => none
  | x :: xs =>
    match lastIdxOf c xs with
    | some p => some (p + 1)
    | none => if x = c then some 0 else none

/-- Rust `str::trim_end`: drop trailing Unicode-whitespace characters. -/
def rustTrimEnd : List Char → List Char
  | [] => []
  | c :: cs =>
    match rustTrimEnd cs with
    | [] => if isRustWhitespace c then [] else [c]
    | r => c :: r

/-- `ellipsize` from src/main.rs: return `text` unchanged when its
character count is within `max_chars`; otherwise take the first
`max_chars` characters, cut at the last space of that slice (trimming
trailing whitespace) when one exists, and append `"..."`. -/
def ellipsize (text : String) (max_chars : Nat) : String :=
  if text.data.length ≤ max_chars then text
  else
    let taken := text.data.take max_chars
    let trimmed :=
      match lastIdxOf ' ' taken with
      | some pos => rustTrimEnd (taken.take pos)
      | none => taken
    ⟨trimmed ++ ['.', '.', '.']⟩

/-! ## Semantic versions (the `semver` crate, as used by the comparator)

`semver::Version::parse` accepts `MAJOR.MINOR.PATCH[-PRE][+BUILD]` where
the three core components are decimal `u64`s without leading zeros, and
the pre-release/build parts are dot-separated non-empty identifiers over
`[0-9A-Za-z-]`; an all-digit pre-release identifier must not have a
leading zero.  `semver::Version`'s `Ord` compares major, minor, patch,
then pre-release precedence (absence ranks above presence; all-digit
identifiers compare numerically, digits sort below letters), and finally
build metadata with the same identifier order as a total-order
tie-breaker. -/

structure SemVer where
  major : Nat
  minor : Nat
  patch : Nat
  pre : List (List Char)
  build : List (List Char)
deriving DecidableEq, Repr

/-- Split at the first occurrence of `sep`: characters before it, and
(some) characters after it when present. -/
def splitOnFirst (sep : Char) : List Char → List Char × Option (List Char)
  | [] => ([], none)
  | c :: cs =>
    if c = sep then ([], some cs)
    else
      let r := splitOnFirst sep cs
      (c :: r.1, r.2)

/-- Split on every occurrence of `sep` (like `str::split`); always returns
at least one (possibly empty) segment. -/
def splitOn (sep : Char) : List Char → List (List Char)
  | [] => [[]]
  | c :: cs =>
    match splitOn sep cs with
    | [] => [[]]
    | h :: t => if c = sep then [] :: h :: t else (c :: h) :: t

/-- Decimal value of a digit list. -/
def digitsToNat (l : List Char) : Nat :=
  l.foldl (fun acc c => acc * 10 + (c.toNat - 48)) 0

/-- Parse one core numeric component: non-empty, digits only, no leading
zero, and within `u64` range. -/
def parseNumeric (l : List Char) : Option Nat :=
  if l.isEmpty then none
  else if !l.all isDigitCh then none
  else if decide (1 < l.length) && l.head? == some '0' then none
  else if digitsToNat l < 2 ^ 64 then some (digitsToNat l) else none

/-- A valid pre-release identifier: non-empty, identifier characters, and
no leading zero when all digits. -/
def checkPreIdent (l : List Char) : Bool :=
  !l.isEmpty && l.all isIdentCh &&
    !(l.all isDigitCh && decide (1 < l.length) && l.head? == some '0')

/-- A valid build identifier: non-empty identifier characters
(leading zeros permitted). -/
def checkBuildIdent (l : List Char) : Bool := !l.isEmpty && l.all isIdentCh

/-- `semver::Version::parse` on a character list: split off build metadata
at the first `+`, split off the pre-release at the first `-` before that,
then require exactly three numeric core components and well-formed
identifier segments. -/
def parseVersion (l : List Char) : Option SemVer :=
  let b := splitOnFirst '+' l
  let p := splitOnFirst '-' b.1
  match splitOn '.' p.1 with
  | [ma, mi, pa] =>
    match parseNumeric ma, parseNumeric mi, parseNumeric pa with
    | some major, some minor, some patch =>
      let preIds : Option (List (List Char)) :=
        match p.2 with
        | none => some []
        | some pr =>
          let ids := splitOn '.' pr
          if ids.all checkPreIdent then some ids else none
      let buildIds : Option (List (List Char)) :=
        match b.2 with
        | none => some []
        | some bu =>
          let ids := splitOn '.' bu
          if ids.all checkBuildIdent then some ids else none
      match preIds, buildIds with
      | some pre, some build => some ⟨major, minor, patch, pre, build⟩
      | _, _ => none
    | _, _, _ => none
  | _ => none

/-- Compare one pre-release/build identifier pair, as the `semver` crate
does: two all-digit identifiers compare numerically (length, then
lexicographic — sound because parsed numeric identifiers have no leading
zeros), digits sort below letters, and otherwise ASCII-lexicographic. -/
def cmpIdent (a b : List Char) : Ordering :=
  match a.all isDigitCh, b.all isDigitCh with
  | true, true => (compare a.length b.length).then (cmpLex a b)
  | true, false => .lt
  | false, true => .gt
  | false, false => cmpLex a b

/-- Compare dot-separated identifier lists left to right; exhausting
one's identifiers first sorts it first. -/
def cmpIdents : List (List Char) → List (List Char) → Ordering
  | [], [] => .eq
  | [], _ :: _ => .lt
  | _ :: _, [] => .gt
  | a :: ta, b :: tb => (cmpIdent a b).then (cmpIdents ta tb)

/-- Drop leading `'0'` characters. -/
def trimLeadingZeros (l : List Char) : List Char := l.dropWhile fun c => c == '0'

/-- Compare one build-metadata identifier pair, as the `semver` crate
does: build digit identifiers may carry leading zeros, so two all-digit
identifiers compare by the zero-trimmed value (length then lexicographic)
and then by total length (`0 < 00 < 1 < 01 < 001 < 2`); digits sort below
letters; otherwise ASCII-lexicographic. -/
def cmpBuildIdent (a b : List Char) : Ordering :=
  match a.all isDigitCh, b.all isDigitCh with
  | true, true =>
    ((compare (trimLeadingZeros a).length (trimLeadingZeros b).length).then
        (cmpLex (trimLeadingZeros a) (trimLeadingZeros b))).then
      (compare a.length b.length)
  | true, false => .lt
  | false, true => .gt
  | false, false => cmpLex a b

/-- Compare build-metadata identifier lists left to right. -/
def cmpBuildIdents : List (List Char) → List (List Char) → Ordering
  | [], [] => .eq
  | [], _ :: _ => .lt
  | _ :: _, [] => .gt
  | a :: ta, b :: tb => (cmpBuildIdent a b).then (cmpBuildIdents ta tb)

/-- Pre-release precedence: absence of a pre-release ranks above any
pre-release; otherwise identifier order. -/
def cmpPre (a b : List (List Char)) : Ordering :=
  match a, b with
  | [], [] => .eq
  | [], _ :: _ => .gt
  | _ :: _, [] => .lt
  | a', b' => cmpIdents a' b'

/-- `semver::Version`'s `Ord::cmp`: major, minor, patch, pre-release
precedence, then build metadata as a tie-breaker. -/
def semverCmp (a b : SemVer) : Ordering :=
  (compare a.major b.major).then
    ((compare a.minor b.minor).then
      ((compare a.patch b.patch).then
        ((cmpPre a.pre b.pre).then (cmpBuildIdents a.build b.build))))

/-- The sort comparator closure of `format_chart_versions`
(src/main.rs lines 223–231): if both version strings parse as semantic
versions, compare them with arguments swapped (descending semver order);
otherwise compare the raw strings with arguments swapped (descending
byte-wise string order). -/
def versionComparator (a b : ChartVersion) : Ordering :=
  match parseVersion a.version.data, parseVersion b.version.data with
  | some av, some bv => semverCmp bv av
  | _, _ => cmpLex b.version.data a.version.data

/-! ## Field formatting (src/main.rs lines 180–249)

Chrono's RFC3339 parsing plus local-timezone rendering is an external,
environment-dependent collaborator (the rendered text depends on the
process's local timezone).  It is modelled at its interface boundary as a
function `chrono : String → Option String` that returns `some display`
when the raw string parses under RFC3339 (with `display` the
locally-rendered form) and `none` when parsing fails. -/

/-- The fixed placeholder for absent fields. -/
def placeholder : String := "<unspecified>"

/-- `format_created` from src/main.rs: an absent timestamp renders as the
placeholder, an unparsable timestamp passes through unchanged, and a
parsable one renders via the chrono collaborator. -/
def format_created (chrono : String → Option String) (created : Option String) : String :=
  match created with
  | some s =>
    match chrono s with
    | some display => display
    | none => s
  | none => placeholder

/-- The seven columns of one formatted row, in output order: CHART, TYPE,
VERSION, DESCRIPTION, APP VERSION, CREATED, KUBE VERSION
(src/main.rs lines 236–245). -/
def rowFields (chrono : String → Option String) (chart_name : String)
    (v : ChartVersion) : List String :=
  [chart_name,
   v.chart_type.getD placeholder,
   v.version,
   ellipsize (v.description.getD "") 50,
   v.app_version.getD placeholder,
   format_created chrono v.created,
   v.kube_version.getD placeholder]

/-- One tab-delimited output line for one version record. -/
def renderLine (chrono : String → Option String) (chart_name : String)
    (v : ChartVersion) : String :=
  String.intercalate "\t" (rowFields chrono chart_name v)

/-- The `sort_by` call of `format_chart_versions`: a stable sort by
`versionComparator` (an element sorts no later than another when the
comparator does not answer `gt`). -/
def sortVersions (versions : List ChartVersion) : List ChartVersion :=
  versions.mergeSort fun a b => versionComparator a b != .gt

/-- `format_chart_versions` from src/main.rs: sort the records descending
with the version comparator, then render one tab-delimited line each. -/
def format_chart_versions (chrono : String → Option String) (chart_name : String)
    (versions : List ChartVersion) : List String :=
  (sortVersions versions).map (renderLine chrono chart_name)

/-! ## The render pipeline of `run` (src/main.rs lines 61–161)

The parsed `entries` HashMap is modelled as an association list given in
the (unspecified) iteration order of the map; `run`'s loop consumes it in
exactly that order.  The tabwriter column-alignment pass rewrites tabs to
padding but preserves the line structure, so output is modelled as the
list of pre-alignment lines. -/

/-- The header line written before any data line. -/
def headerLine : String :=
  "CHART\tTYPE\tVERSION\tDESCRIPTION\tAPP VERSION\tCREATED\tKUBE VERSION"

/-- The chart-name filter (src/main.rs line 69): with a filter, retain
entries whose name equals the filter up to ASCII case; otherwise keep
everything. -/
def retainEntries (entries : List (String × List ChartVersion))
    (chartFilter : Option String) : List (String × List ChartVersion) :=
  match chartFilter with
  | some chart_name => entries.filter fun p => eqIgnoreAsciiCase p.1 chart_name
  | none => entries

/-- The type-filter predicate (src/main.rs lines 100–103): a record
matches when its `type` field is present and equals the filter up to
ASCII case; an absent `type` never matches. -/
def typeMatches (filter_type : String) (v : ChartVersion) : Bool :=
  match v.chart_type with
  | some s => eqIgnoreAsciiCase s filter_type
  | none => false

/-- Per-chart type filtering (src/main.rs lines 95–109). -/
def filterByType (typeFilter : Option String) (versions : List ChartVersion) :
    List ChartVersion :=
  match typeFilter with
  | some filter_type => versions.filter (typeMatches filter_type)
  | none => versions

/-- All data lines of the table: each chart contributes its formatted
lines, and a chart whose versions are all filtered away contributes
nothing (src/main.rs lines 93–119). -/
def dataLines (chrono : String → Option String)
    (entries : List (String × List ChartVersion)) (typeFilter : Option String) :
    List String :=
  entries.flatMap fun p =>
    let fv := filterByType typeFilter p.2
    if fv.isEmpty then [] else format_chart_versions chrono p.1 fv

/-- The names of the charts that contribute at least one row, in the
order in which `run`'s loop emits their groups. -/
def chartSequence (entries : List (String × List ChartVersion))
    (typeFilter : Option String) : List String :=
  entries.filterMap fun p =>
    let fv := filterByType typeFilter p.2
    if fv.isEmpty then none else some p.1

/-- The three observable outcomes of the rendering part of `run`:
the informational "no charts found for chart name" early return
(`Ok` with a message), the fatal "No charts found." error, and a
successful table (header line first). -/
inductive RunOutcome where
  | infoNoCharts (chart_name : String)
  | fatalNoCharts
  | output (lines : List String)
deriving DecidableEq, Repr

/-- Assemble the table and classify the result: exactly one line (the
header alone) is the fatal "No charts found." error
(src/main.rs lines 130–132). -/
def renderTable (chrono : String → Option String)
    (entries : List (String × List ChartVersion)) (typeFilter : Option String) :
    RunOutcome :=
  let dl := dataLines chrono entries typeFilter
  if dl.isEmpty then .fatalNoCharts else .output (headerLine :: dl)

/-- The rendering logic of `run` (src/main.rs lines 61–132): apply the
name filter; when it was given and retained nothing, take the
informational early return; otherwise assemble the table. -/
def runModel (chrono : String → Option String)
    (entries : List (String × List ChartVersion))
    (chartFilter typeFilter : Option String) : RunOutcome :=
  match chartFilter with
  | some chart_name =>
    let retained := retainEntries entries (some chart_name)
    if retained.isEmpty then .infoNoCharts chart_name
    else renderTable chrono retained typeFilter
  | none => renderTable chrono entries typeFilter

/-! ## Output policy (src/main.rs lines 78–80 and 134–158) -/

/-- Where the assembled text goes. -/
inductive Sink where
  | stdout
  | pager (program : String)
deriving DecidableEq, Repr

/-- The output-sink decision of `run`: paging is enabled unless the
`--no-pager` flag or either of `HELM_LIST_CHARTS_NO_PAGER` / `NO_PAGER`
is set; with paging enabled, a text of at least 25 lines (header
included) is streamed to the program named by `PAGER` (default "less"),
otherwise the text is written to stdout. -/
def decideSink (no_pager : Bool) (envHelmNoPager envNoPager : Bool)
    (envPager : Option String) (lineCount : Nat) : Sink :=
  let pager_enabled := !no_pager && !(envHelmNoPager || envNoPager)
  if pager_enabled && decide (25 ≤ lineCount) then .pager (envPager.getD "less")
  else .stdout

/-! ## The index parser (src/main.rs lines 176–178)

`parse_index` delegates to `serde_yaml`, an external collaborator.  The
byte-level YAML grammar is out of scope; the parser is modelled from the
structured document value onward: a YAML value is deserialized into
`IndexFile` following serde's derived semantics — the document must be a
mapping with an `entries` key, `entries` must map string keys to
sequences, each element must be a mapping with a required string
`version` and optional string fields (`null` and a missing key both
deserialize to `none`), and unknown fields are ignored. -/

/-- A structured YAML document value. -/
inductive Yaml where
  | null
  | bool (b : Bool)
  | num (repr : String)
  | str (s : String)
  | seq (items : List Yaml)
  | map (pairs : List (Yaml × Yaml))

/-- Does a YAML value equal the string `key`?  (serde field/key matching
deserializes mapping keys as strings.) -/
def isStrKey (key : String) : Yaml → Bool
  | .str s => s == key
  | _ => false

/-- Look up a string key in a YAML mapping. -/
def yamlGet (key : String) (pairs : List (Yaml × Yaml)) : Option Yaml :=
  (pairs.find? fun p => isStrKey key p.1).map Prod.snd

/-- Deserialize an optional string field: missing key or `null` give
`none`; a string gives `some`; any other value is a type error. -/
def parseOptString : Option Yaml → Option (Option String)
  | none => some none
  | some .null => some none
  | some (.str s) => some (some s)
  | some _ => none

/-- Deserialize one `ChartVersion`: a mapping with a required string
`version` and optional string fields under serde's renamed keys. -/
def parseChartVersion : Yaml → Option ChartVersion
  | .map ps =>
    match yamlGet "version" ps with
    | some (.str v) =>
      match parseOptString (yamlGet "description" ps),
            parseOptString (yamlGet "appVersion" ps),
            parseOptString (yamlGet "created" ps),
            parseOptString (yamlGet "kubeVersion" ps),
            parseOptString (yamlGet "type" ps) with
      | some d, some av, some cr, some kv, some ty =>
        some ⟨v, d, av, cr, kv, ty⟩
      | _, _, _, _, _ => none
    | _ => none
  | _ => none

/-- Deserialize a sequence of `ChartVersion`s elementwise. -/
def parseChartList : List Yaml → Option (List ChartVersion)
  | [] => some []
  | y :: ys =>
    match parseChartVersion y, parseChartList ys with
    | some v, some vs => some (v :: vs)
    | _, _ => none

/-- Deserialize the `entries` mapping: every key must be a string and
every value a sequence of version records.  The resulting association
list carries the document's key order (the in-memory `HashMap` then
iterates it in an unspecified order; see `runModel`). -/
def parseEntriesPairs : List (Yaml × Yaml) →
    Option (List (String × List ChartVersion))
  | [] => some []
  | (k, v) :: ps =>
    match k, v with
    | .str name, .seq items =>
      match parseChartList items, parseEntriesPairs ps with
      | some vs, some rest => some ((name, vs) :: rest)
      | _, _ => none
    | _, _ => none

/-- `IndexFile` from src/main.rs: the parsed index document. -/
structure IndexFile where
  entries : List (String × List ChartVersion)
deriving DecidableEq, Repr

/-- `parse_index` from src/main.rs, modelled from the structured document
value: the document must be a mapping containing `entries` (other
top-level keys are ignored), whose value must be a mapping of chart names
to sequences of version records. -/
def parse_index (doc : Yaml) : Option IndexFile :=
  match doc with
  | .map ps =>
    match yamlGet "entries" ps with
    | some (.map epairs) => (parseEntriesPairs epairs).map IndexFile.mk
    | _ => none
  | _ => none

/-- A minimal concrete record, used to instantiate theorems. -/
def sampleVersion : ChartVersion := ⟨"1.0.0", none, none, none, none, none⟩

/-! ## Helper lemmas -/

theorem rustTrimEnd_length_le (l : List Char) : (rustTrimEnd l).length ≤ l.length := by
  induction l with
  | nil => simp [rustTrimEnd]
  | cons c cs ih =>
    rw [rustTrimEnd]
    cases h : rustTrimEnd cs with
    | nil =>
      by_cases hw : isRustWhitespace c <;> simp [hw]
    | cons r rs =>
      rw [h] at ih
      simpa using Nat.succ_le_succ ih

theorem length_take_le (l : List Char) (n : Nat) : (l.take n).length ≤ n := by
  simp [List.length_take]

/-- The body of a truncated excerpt before the ellipsis is appended. -/
theorem ellipsize_of_gt (s : String) (n : Nat) (h : ¬ s.data.length ≤ n) :
    ellipsize s n =
      ⟨(match lastIdxOf ' ' (s.data.take n) with
        | some pos => rustTrimEnd ((s.data.take n).take pos)
        | none => s.data.take n) ++ ['.', '.', '.']⟩ := by
  rw [ellipsize, if_neg h]

/-! ## C7: the excerpt never exceeds `budget + 3` characters -/

/-- C7 — `ellipsize` never produces more than `max_chars + 3` characters;
text whose character count is within budget is returned unchanged with no
ellipsis; and when truncation occurs the result is the first `max_chars`
characters — cut back at the last space of that slice with trailing
whitespace trimmed when a space exists, raw otherwise — followed by
`"..."`. -/
theorem ellipsize_bounded (s : String) (n : Nat) :
    (ellipsize s n).data.length ≤ n + 3
    ∧ (s.data.length ≤ n → ellipsize s n = s)
    ∧ (n < s.data.length →
        (lastIdxOf ' ' (s.data.take n) = none →
          ellipsize s n = ⟨s.data.take n ++ ['.', '.', '.']⟩)
        ∧ (∀ pos, lastIdxOf ' ' (s.data.take n) = some pos →
          ellipsize s n = ⟨rustTrimEnd ((s.data.take n).take pos) ++ ['.', '.', '.']⟩)) := by
  refine ⟨?_, ?_, ?_⟩
  · by_cases h : s.data.length ≤ n
    · rw [ellipsize, if_pos h]; omega
    · rw [ellipsize_of_gt s n h]
      cases hm : lastIdxOf ' ' (s.data.take n) with
      | none =>
        simp only [hm, List.length_append, List.length_cons, List.length_nil]
        have := length_take_le s.data n
        omega
      | some pos =>
        simp only [hm, List.length_append, List.length_cons, List.length_nil]
        have h1 := rustTrimEnd_length_le ((s.data.take n).take pos)
        have h2 := length_take_le s.data n
        have h3 : ((s.data.take n).take pos).length ≤ (s.data.take n).length :=
          List.length_take_le' ..
        omega
  · intro h; rw [ellipsize, if_pos h]
  · intro h
    constructor
    · intro hm
      rw [ellipsize_of_gt s n (by omega), hm]
    · intro pos hm
      rw [ellipsize_of_gt s n (by omega), hm]

/-- Witness for C7 at concrete inputs: a short string passes through, a
spaceless long string is cut raw, and a spaced long string is cut at the
last space. -/
theorem ellipsize_bounded_witness :
    ellipsize "hi" 10 = "hi"
    ∧ ellipsize "abcdef" 3 = ⟨"abcdef".data.take 3 ++ ['.', '.', '.']⟩
    ∧ ellipsize "hello world" 8 =
        ⟨rustTrimEnd (("hello world".data.take 8).take 5) ++ ['.', '.', '.']⟩ :=
  ⟨(ellipsize_bounded "hi" 10).2.1 (by decide),
   ((ellipsize_bounded "abcdef" 3).2.2 (by decide)).1 (by decide),
   ((ellipsize_bounded "hello world" 8).2.2 (by decide)).2 5 (by decide)⟩

/-! ## C2: excerpting is *not* idempotent in general -/

/-- C2 counterexample — `ellipsize "ab cdef" 4` is `"ab..."` (5 characters,
over the budget of 4), so a second application truncates again and yields
`"ab....."`. -/
theorem ellipsize_two_applications_differ :
    ellipsize (ellipsize "ab cdef" 4) 4 ≠ ellipsize "ab cdef" 4 := by decide

/-- C2 amended — excerpting is idempotent whenever the first excerpt's
character count is within the budget (in particular whenever the input is
within budget); a truncated excerpt can exceed the budget by up to the
three ellipsis characters, and only then does a second application change
it. -/
theorem ellipsize_idempotent_within_budget (s : String) (n : Nat)
    (h : (ellipsize s n).data.length ≤ n) :
    ellipsize (ellipsize s n) n = ellipsize s n := by
  conv_lhs => rw [ellipsize]
  rw [if_pos h]

/-- Witness for the amended C2: `ellipsize "xyz qqqqq" 7 = "xyz..."`, whose
6 characters are within the budget of 7, so re-excerpting fixes it. -/
theorem ellipsize_idempotent_within_budget_witness :
    (ellipsize "xyz qqqqq" 7).data.length ≤ 7
    ∧ ellipsize (ellipsize "xyz qqqqq" 7) 7 = ellipsize "xyz qqqqq" 7 :=
  ⟨by decide, ellipsize_idempotent_within_budget "xyz qqqqq" 7 (by decide)⟩

/-! ## C1: the version comparator -/

/-- C1 — for every pair of version records the comparator is total (it
always answers `lt`, `eq` or `gt`; as a pure function it cannot panic):
when both version strings parse as semantic versions it compares them by
the semver library's precedence with the arguments swapped (descending,
newest first), and when either string fails to parse it falls back to
byte-wise string comparison of the raw strings, again descending. -/
theorem versionComparator_spec (a b : ChartVersion) :
    (∀ va vb, parseVersion a.version.data = some va →
      parseVersion b.version.data = some vb →
      versionComparator a b = semverCmp vb va)
    ∧ ((parseVersion a.version.data = none ∨ parseVersion b.version.data = none) →
      versionComparator a b = cmpLex b.version.data a.version.data)
    ∧ (versionComparator a b = .lt ∨ versionComparator a b = .eq ∨
        versionComparator a b = .gt) := by
  refine ⟨?_, ?_, ?_⟩
  · intro va vb ha hb
    simp [versionComparator, ha, hb]
  · rintro (h | h)
    · simp [versionComparator, h]
    · cases hpa : parseVersion a.version.data <;> simp [versionComparator, hpa, h]
  · cases h : versionComparator a b
    · exact Or.inl rfl
    · exact Or.inr (Or.inl rfl)
    · exact Or.inr (Or.inr rfl)

/-- Witness for C1: `1.10.0` ranks above `1.2.3` semantically (numeric,
not lexicographic, comparison of components), and a non-semver string
triggers the raw-string fallback. -/
theorem versionComparator_spec_witness :
    versionComparator ⟨"1.2.3", none, none, none, none, none⟩
        ⟨"1.10.0", none, none, none, none, none⟩ =
      semverCmp ⟨1, 10, 0, [], []⟩ ⟨1, 2, 3, [], []⟩
    ∧ versionComparator ⟨"not semver", none, none, none, none, none⟩
        ⟨"1.0.0", none, none, none, none, none⟩ =
      cmpLex "1.0.0".data "not semver".data :=
  ⟨(versionComparator_spec _ _).1 ⟨1, 2, 3, [], []⟩ ⟨1, 10, 0, [], []⟩
      (by decide) (by decide),
   (versionComparator_spec _ _).2.1 (Or.inl (by decide))⟩

/-! ## C9: formatting emits one line per record and loses none -/

/-- C9 — `format_chart_versions` emits exactly one output line per input
record, and the records rendered are exactly the input records: the sort
step is a permutation (never dropping, duplicating or altering a record)
and each sorted record becomes one rendered line. -/
theorem format_chart_versions_one_line_per_record
    (chrono : String → Option String) (chart_name : String)
    (versions : List ChartVersion) :
    (format_chart_versions chrono chart_name versions).length = versions.length
    ∧ (sortVersions versions).Perm versions
    ∧ format_chart_versions chrono chart_name versions =
        (sortVersions versions).map (renderLine chrono chart_name) := by
  have hperm : (sortVersions versions).Perm versions :=
    List.mergeSort_perm versions _
  refine ⟨?_, hperm, rfl⟩
  simp [format_chart_versions, hperm.length_eq]

/-! ## C3: the two empty-result conditions are distinct outcomes -/

/-- C3 — a name filter that matches zero charts takes the informational
non-fatal early return, while a run that passes the name-filter stage but
assembles zero data lines (a header-only table) ends in the fatal
"No charts found." error. -/
theorem run_empty_outcomes (chrono : String → Option String)
    (entries : List (String × List ChartVersion))
    (chartFilter typeFilter : Option String) :
    (∀ cn, chartFilter = some cn → retainEntries entries (some cn) = [] →
      runModel chrono entries chartFilter typeFilter = .infoNoCharts cn)
    ∧ (dataLines chrono (retainEntries entries chartFilter) typeFilter = [] →
      (∀ cn, chartFilter = some cn → retainEntries entries (some cn) ≠ []) →
      runModel chrono entries chartFilter typeFilter = .fatalNoCharts) := by
  constructor
  · intro cn hcf hret
    subst hcf
    simp [runModel, hret]
  · intro hdl hne
    cases chartFilter with
    | none =>
      simp only [retainEntries] at hdl
      simp [runModel, renderTable, hdl]
    | some cn =>
      have hr := hne cn rfl
      simp [runModel, renderTable, hdl, List.isEmpty_iff, hr]

/-- Witness for C3: a filter for chart `"b"` over an index that only has
`"a"` returns the informational outcome, and an index whose single chart
has no versions renders a header-only table, the fatal outcome. -/
theorem run_empty_outcomes_witness :
    runModel (fun _ => none) [("a", [sampleVersion])] (some "b") none =
      .infoNoCharts "b"
    ∧ runModel (fun _ => none) [("a", [])] none none = .fatalNoCharts :=
  ⟨(run_empty_outcomes _ _ _ _).1 "b" rfl (by decide),
   (run_empty_outcomes _ _ _ _).2 (by decide) (fun _ h => Option.noConfusion h)⟩

/-! ## C4: charts are *not* listed in document insertion order

`run` collects the entries of a `std::collections::HashMap`
(src/main.rs line 65) and never re-orders them, so the chart groups
appear in the map's iteration order — an unspecified permutation of the
parsed document's entries, not the document's own order. -/

/-- C4 counterexample — quantifying over every iteration order the hash
map may present (any permutation of the parsed entries), the output's
chart sequence does not always equal the document's chart order: a
two-chart document iterated in swapped order lists `"b"` before `"a"`. -/
theorem chartSequence_ne_document_order :
    ¬ ∀ (docEntries iterEntries : List (String × List ChartVersion)),
        iterEntries.Perm docEntries →
        chartSequence iterEntries none = docEntries.map Prod.fst := by
  intro h
  have hswap : ([("b", [sampleVersion]), ("a", [sampleVersion])] :
      List (String × List ChartVersion)).Perm
      [("a", [sampleVersion]), ("b", [sampleVersion])] :=
    List.Perm.swap _ _ _
  have := h [("a", [sampleVersion]), ("b", [sampleVersion])]
    [("b", [sampleVersion]), ("a", [sampleVersion])] hswap
  exact absurd this (by decide)

theorem chartSequence_eq_map_fst (l : List (String × List ChartVersion))
    (h : ∀ p ∈ l, p.2 ≠ []) : chartSequence l none = l.map Prod.fst := by
  induction l with
  | nil => rfl
  | cons p t ih =>
    have hp : p.2 ≠ [] := h p (List.mem_cons_self p t)
    have ht : ∀ q ∈ t, q.2 ≠ [] := fun q hq => h q (List.mem_cons_of_mem p hq)
    simp [chartSequence, filterByType, List.filterMap_cons, hp,
      List.isEmpty_iff] at *
    exact ih ht

/-- C4 amended — the rendered output lists charts in the hash map's
iteration order, an unspecified permutation of the parsed document's
entries: for every iteration order, when each chart has at least one
version and no type filter is given, the output's chart sequence equals
that iteration order's names — a permutation of the document's chart
names, but not necessarily the document's own order. -/
theorem chartSequence_follows_iteration_order
    (docEntries iterEntries : List (String × List ChartVersion))
    (hperm : iterEntries.Perm docEntries)
    (hne : ∀ p ∈ docEntries, p.2 ≠ []) :
    chartSequence iterEntries none = iterEntries.map Prod.fst
    ∧ (iterEntries.map Prod.fst).Perm (docEntries.map Prod.fst) := by
  refine ⟨?_, hperm.map Prod.fst⟩
  exact chartSequence_eq_map_fst iterEntries
    (fun p hp => hne p (hperm.mem_iff.mp hp))

/-- Witness for the amended C4 at the swapped two-chart iteration order. -/
theorem chartSequence_follows_iteration_order_witness :
    chartSequence [("b", [sampleVersion]), ("a", [sampleVersion])] none =
      ["b", "a"]
    ∧ (["b", "a"] : List String).Perm ["a", "b"] := by
  have h := chartSequence_follows_iteration_order
    [("a", [sampleVersion]), ("b", [sampleVersion])]
    [("b", [sampleVersion]), ("a", [sampleVersion])]
    (List.Perm.swap _ _ _) (by decide)
  exact ⟨h.1, h.2⟩

/-! ## C5: the parser does *not* enforce non-empty version sequences -/

theorem parseChartList_length (items : List Yaml) (vs : List ChartVersion)
    (h : parseChartList items = some vs) : vs.length = items.length := by
  induction items generalizing vs with
  | nil =>
    simp [parseChartList] at h
    simp [← h]
  | cons y ys ih =>
    cases hv : parseChartVersion y <;>
      cases hl : parseChartList ys <;>
        simp [parseChartList, hv, hl] at h
    simp [← h, ih _ hl]

theorem parseEntriesPairs_mem (ps : List (Yaml × Yaml))
    (l : List (String × List ChartVersion)) (h : parseEntriesPairs ps = some l) :
    ∀ p ∈ l, ∃ kv ∈ ps, ∃ items, kv.1 = Yaml.str p.1 ∧ kv.2 = Yaml.seq items ∧
      parseChartList items = some p.2 := by
  induction ps generalizing l with
  | nil =>
    simp [parseEntriesPairs] at h
    subst h
    intro p hp
    simp at hp
  | cons kv ps ih =>
    obtain ⟨k, v⟩ := kv
    cases k <;> simp [parseEntriesPairs] at h
    cases v <;> simp at h
    rename_i name items
    cases hcl : parseChartList items <;>
      cases hpe : parseEntriesPairs ps <;> simp [hcl, hpe] at h
    rename_i vs rest
    intro p hp
    rw [← h] at hp
    rcases List.mem_cons.mp hp with heq | hmem
    · subst heq
      exact ⟨(Yaml.str name, Yaml.seq items), List.mem_cons_self _ _,
        items, rfl, rfl, hcl⟩
    · obtain ⟨kv', hkv', items', h1, h2, h3⟩ := ih rest hpe p hmem
      exact ⟨kv', List.mem_cons_of_mem _ hkv', items', h1, h2, h3⟩

/-- C5 counterexample — the parser accepts a document in which a chart
name maps to an empty sequence: `entries: {foo: []}` parses successfully
with `"foo"` mapped to `[]`, so the non-empty invariant does not hold for
all parser outputs. -/
theorem parse_index_allows_empty_chart_sequence :
    ¬ ∀ (doc : Yaml) (idx : IndexFile), parse_index doc = some idx →
        ∀ p ∈ idx.entries, p.2 ≠ [] := by
  intro h
  exact h (.map [(.str "entries", .map [(.str "foo", .seq [])])])
    ⟨[("foo", [])]⟩ (by decide) ("foo", []) (by decide) rfl

/-- C5 amended — for every document the parser accepts, each chart name
in `entries` maps to the sequence parsed elementwise from that chart's
document sequence: its length equals the document sequence's length, so
it is non-empty exactly when the document supplies at least one record —
the parser itself does not enforce non-emptiness. -/
theorem parse_index_entries_mirror_document (doc : Yaml) (idx : IndexFile)
    (h : parse_index doc = some idx) :
    ∀ p ∈ idx.entries, ∃ ps epairs, doc = .map ps ∧
      yamlGet "entries" ps = some (.map epairs) ∧
      ∃ kv ∈ epairs, ∃ items, kv.1 = Yaml.str p.1 ∧ kv.2 = Yaml.seq items ∧
        parseChartList items = some p.2 ∧ p.2.length = items.length ∧
        (p.2 = [] ↔ items = []) := by
  intro p hp
  cases doc <;> simp [parse_index] at h
  rename_i ps
  cases hg : yamlGet "entries" ps with
  | none => rw [hg] at h; simp at h
  | some e =>
    rw [hg] at h
    cases e <;> simp at h
    rename_i epairs
    obtain ⟨entries, hpe, hidx⟩ := h
    subst hidx
    obtain ⟨kv, hkv, items, h1, h2, h3⟩ :=
      parseEntriesPairs_mem epairs entries hpe p hp
    have hlen := parseChartList_length items p.2 h3
    refine ⟨ps, epairs, rfl, hg, kv, hkv, items, h1, h2, h3, hlen, ?_, ?_⟩
    · intro hnil
      exact List.length_eq_zero.mp (by rw [← hlen, hnil]; rfl)
    · intro hnil
      exact List.length_eq_zero.mp (by rw [hlen, hnil]; rfl)

/-- Witness for the amended C5 at a one-chart, one-version document. -/
theorem parse_index_entries_mirror_document_witness :
    ∃ ps epairs,
      (Yaml.map [(Yaml.str "entries", Yaml.map [(Yaml.str "c",
        Yaml.seq [Yaml.map [(Yaml.str "version", Yaml.str "1.0.0")]])])]) =
        Yaml.map ps ∧
      yamlGet "entries" ps = some (.map epairs) ∧
      ∃ kv ∈ epairs, ∃ items,
        kv.1 = Yaml.str ("c", [sampleVersion]).1 ∧ kv.2 = Yaml.seq items ∧
        parseChartList items = some ("c", [sampleVersion]).2 ∧
        ("c", [sampleVersion]).2.length = items.length ∧
        (("c", [sampleVersion]).2 = [] ↔ items = []) :=
  parse_index_entries_mirror_document _ ⟨[("c", [sampleVersion])]⟩ (by decide)
    ("c", [sampleVersion]) (by decide)

/-! ## C6: placeholder columns in a formatted row -/

/-- C6 — each of the seven row fields is derived from its source field,
with the fixed placeholder standing in for an absent `type`, `appVersion`,
`created` or `kubeVersion` (an absent description becomes the excerpt of
the empty string); a record with absent `created`, `kubeVersion` and
`type` renders the placeholder in exactly those three columns. -/
theorem rowFields_placeholder_columns (chrono : String → Option String)
    (chart_name : String) (v : ChartVersion)
    (hc : v.created = none) (hk : v.kube_version = none)
    (ht : v.chart_type = none) :
    rowFields chrono chart_name v =
      [chart_name, placeholder, v.version,
       ellipsize (v.description.getD "") 50, v.app_version.getD placeholder,
       placeholder, placeholder]
    ∧ (∀ a, v.app_version = some a → a ≠ placeholder →
        chart_name ≠ placeholder → v.version ≠ placeholder →
        ellipsize (v.description.getD "") 50 ≠ placeholder →
        (rowFields chrono chart_name v).count placeholder = 3) := by
  constructor
  · simp [rowFields, hc, hk, ht, format_created]
  · intro a ha h1 h2 h3 h4
    simp [rowFields, hc, hk, ht, ha, format_created, List.count_cons,
      h1, h2, h3, h4]

/-- Witness for C6 at a concrete record with `created`, `kubeVersion` and
`type` absent and everything else present. -/
theorem rowFields_placeholder_columns_witness :
    rowFields (fun _ => none) "test-chart"
        ⟨"2.0.0", some "Second release", some "2.0", none, none, none⟩ =
      ["test-chart", placeholder, "2.0.0", "Second release", "2.0",
       placeholder, placeholder]
    ∧ (rowFields (fun _ => none) "test-chart"
        ⟨"2.0.0", some "Second release", some "2.0", none, none, none⟩).count
          placeholder = 3 := by
  have h := rowFields_placeholder_columns (fun _ => none) "test-chart"
    ⟨"2.0.0", some "Second release", some "2.0", none, none, none⟩ rfl rfl rfl
  refine ⟨?_, h.2 "2.0" rfl (by decide) (by decide) (by decide) (by decide)⟩
  rw [h.1]
  decide

/-! ## C8: the output-sink decision -/

/-- C8 — in priority order: the `--no-pager` flag or either no-pager
environment variable forces stdout regardless of length; otherwise a line
count of at least 25 (header included) goes to the pager named by the
`PAGER` variable, defaulting to `"less"`; otherwise stdout. -/
theorem decideSink_policy (no_pager envHelmNoPager envNoPager : Bool)
    (envPager : Option String) (lineCount : Nat) :
    ((no_pager = true ∨ envHelmNoPager = true ∨ envNoPager = true) →
      decideSink no_pager envHelmNoPager envNoPager envPager lineCount = .stdout)
    ∧ (no_pager = false → envHelmNoPager = false → envNoPager = false →
      25 ≤ lineCount →
      decideSink no_pager envHelmNoPager envNoPager envPager lineCount =
        .pager (envPager.getD "less"))
    ∧ (no_pager = false → envHelmNoPager = false → envNoPager = false →
      lineCount < 25 →
      decideSink no_pager envHelmNoPager envNoPager envPager lineCount =
        .stdout) := by
  refine ⟨?_, ?_, ?_⟩
  · rintro (h | h | h) <;> subst h <;> simp [decideSink]
  · intro h1 h2 h3 h4
    subst h1; subst h2; subst h3
    simp [decideSink, h4]
  · intro h1 h2 h3 h4
    subst h1; subst h2; subst h3
    simp [decideSink, Nat.not_le.mpr h4]

/-- Witness for C8: flag set → stdout even at 100 lines; no directive and
30 lines → the `PAGER`-named program; no directive and 10 lines →
stdout. -/
theorem decideSink_policy_witness :
    decideSink true false false none 100 = .stdout
    ∧ decideSink false false false (some "more") 30 = .pager "more"
    ∧ decideSink false false false none 10 = .stdout :=
  ⟨(decideSink_policy true false false none 100).1 (Or.inl rfl),
   (decideSink_policy false false false (some "more") 30).2.1 rfl rfl rfl
     (by decide),
   (decideSink_policy false false false none 10).2.2 rfl rfl rfl (by decide)⟩

/-! ## C10: the filters fold case only for ASCII letters -/

theorem asciiLowerNat_ne_of_non_ascii (ci cf : Char) (hne : ci ≠ cf)
    (h : 128 ≤ ci.toNat ∨ 128 ≤ cf.toNat) :
    asciiLowerNat ci.toNat ≠ asciiLowerNat cf.toNat := by
  intro heq
  apply hne
  have htn : ci.toNat = cf.toNat := by
    unfold asciiLowerNat at heq
    split at heq <;> split at heq <;> omega
  calc ci = Char.ofNat ci.toNat := (Char.ofNat_toNat ci).symm
    _ = Char.ofNat cf.toNat := by rw [htn]
    _ = cf := Char.ofNat_toNat cf

/-- C10 — the name and type filters fold case only for ASCII letters: a
chart name (or `type` value) that differs from the filter at a position
where the characters differ and at least one is non-ASCII is never
retained, while strings that differ only in ASCII letter case do match. -/
theorem case_folding_ascii_only (flt nm : String) (i : Nat) (ci cf : Char)
    (hni : nm.data[i]? = some ci) (hfi : flt.data[i]? = some cf)
    (hne : ci ≠ cf) (hna : 128 ≤ ci.toNat ∨ 128 ≤ cf.toNat) :
    eqIgnoreAsciiCase nm flt = false
    ∧ (∀ entries versions,
        (nm, versions) ∈ retainEntries entries (some flt) → False)
    ∧ (∀ v : ChartVersion, v.chart_type = some nm →
        typeMatches flt v = false)
    ∧ (∀ s t : String, s.data.length = t.data.length →
        (∀ p ∈ s.data.zip t.data,
          asciiLowerNat p.1.toNat = asciiLowerNat p.2.toNat) →
        eqIgnoreAsciiCase s t = true) := by
  have hfalse : eqIgnoreAsciiCase nm flt = false := by
    rw [eqIgnoreAsciiCase]
    apply Bool.and_eq_false_iff.mpr
    right
    apply Bool.not_eq_true _ |>.mp
    intro hall
    have hz : (nm.data.zip flt.data)[i]? = some (ci, cf) :=
      List.getElem?_zip_eq_some.mpr ⟨hni, hfi⟩
    have hmem : (ci, cf) ∈ nm.data.zip flt.data := List.getElem?_mem hz
    have := List.all_eq_true.mp hall _ hmem
    exact asciiLowerNat_ne_of_non_ascii ci cf hne hna (by simpa using this)
  refine ⟨hfalse, ?_, ?_, ?_⟩
  · intro entries versions hmem
    have := List.mem_filter.mp hmem
    rw [hfalse] at this
    exact Bool.false_ne_true this.2
  · intro v hv
    rw [typeMatches, hv]
    exact hfalse
  · intro s t hlen hall
    rw [eqIgnoreAsciiCase]
    apply Bool.and_eq_true_iff.mpr
    constructor
    · simpa using hlen
    · apply List.all_eq_true.mpr
      intro p hp
      simpa using hall p hp

/-- Witness for C10: `"cafÉ"` differs from the filter `"café"` only in
the case of the non-ASCII `É`, and is not retained — while `"CAFé"`,
an ASCII-case variant, does match. -/
theorem case_folding_ascii_only_witness :
    eqIgnoreAsciiCase "cafÉ" "café" = false
    ∧ typeMatches "café" ⟨"1.0.0", none, none, none, none, some "cafÉ"⟩ = false
    ∧ eqIgnoreAsciiCase "CAFé" "café" = true := by
  have h := case_folding_ascii_only "café" "cafÉ" 3 'É' 'é'
    (by decide) (by decide) (by decide) (by decide)
  exact ⟨h.1, h.2.2.1 _ rfl, h.2.2.2 "CAFé" "café" (by decide) (by decide)⟩

end HelmListCharts
